import Mathlib

/-!
Shallow embedding of the fsql package (metadata registry, filter/sort
compiler, count rewriter, insert/update builders) and proofs about it.

Go strings are modelled as Lean `String`; Go string manipulation is
re-implemented structurally on `List Char` so every definition evaluates
inside the kernel.  Go maps that only ever serve point lookups are
modelled as association lists where the most recent insertion is found
first (matching Go map overwrite semantics).  Go `panic` and returned
`error` values are kept distinct through the `Failure` type.
-/

namespace Fsql

/-- Opaque runtime values that flow through the compiler's positional
argument lists (Go `interface\x7b\x7d`).  `varray` marks the result of the
`pq.Array` coercion applied to `$in`/`$nin` filter values: the wrapped
value is still bound as one single argument. -/
inductive Value where
  | vstr : String → Value
  | vint : Int → Value
  | vbool : Bool → Value
  | vnull : Value
  | varray : Value → Value
deriving DecidableEq

/-- Rebuild a string from its characters. -/
def mkStr (l : List Char) : String := String.mk l

/-- ASCII upper-casing of one character (model of the case mapping used by
Go `strings.ToUpper` on the ASCII range). -/
def upperC (c : Char) : Char :=
  if 'a' ≤ c ∧ c ≤ 'z' then Char.ofNat (c.toNat - 32) else c

/-- ASCII lower-casing of one character (model of `strings.ToLower`). -/
def lowerC (c : Char) : Char :=
  if 'A' ≤ c ∧ c ≤ 'Z' then Char.ofNat (c.toNat + 32) else c

/-- Model of Go `strings.ToUpper`. -/
def strToUpper (s : String) : String := mkStr (s.data.map upperC)

/-- Model of Go `strings.ToLower`. -/
def strToLower (s : String) : String := mkStr (s.data.map lowerC)

/-- Split a character list at every occurrence of `sep` (model of Go
`strings.Split` with a one-character separator; the empty input yields
one empty piece, as in Go). -/
def splitOnC (sep : Char) : List Char → List (List Char)
  | [] => [[]]
  | c :: cs =>
    match splitOnC sep cs with
    | [] => [[c]]
    | r :: rs => if c = sep then [] :: r :: rs else (c :: r) :: rs

/-- Model of Go `strings.Split` with a one-character separator. -/
def splitStr (sep : Char) (s : String) : List String :=
  (splitOnC sep s.data).map mkStr

/-- Model of Go `strings.Join`. -/
def joinSep (sep : String) : List String → String
  | [] => ""
  | [s] => s
  | s :: rest => s ++ sep ++ joinSep sep rest

/-- Model of `strings.ReplaceAll(s, quote, empty)`: drop every
double-quote character. -/
def removeQuotes (s : String) : String :=
  mkStr (s.data.filter (fun c => if c = '"' then false else true))

/-- Model of `strings.TrimSuffix(s, closing-bracket)`. -/
def trimRB (s : String) : String :=
  match s.data.getLast? with
  | some c => if c = ']' then mkStr s.data.dropLast else s
  | none => s

/-- First-match association-list lookup (model of a Go map read when new
bindings are consed on the front). -/
def lookupA {α : Type} (k : String) : List (String × α) → Option α
  | [] => none
  | (k2, v) :: rest => if k2 = k then some v else lookupA k rest

/-- Membership test on a list of strings (model of the `modeFlags` set
built from the split `dbMode` tag). -/
def hasFlag (modes : List String) (m : String) : Bool :=
  match modes with
  | [] => false
  | x :: rest => if x = m then true else hasFlag rest m

/-- One annotated record field, as reflection presents it to
`InitModelTagCache`: structural field name plus the raw `db`, `dbMode`
and `dbInsertValue` tag texts (empty string when the tag is absent). -/
structure ModelField where
  name : String
  dbTag : String
  dbMode : String
  dbInsertValue : String
deriving DecidableEq

/-- The cached per-table metadata (`modelInfo` in cache.go).  The three
`map[string]struct\x7b\x7d` membership caches of the source are omitted: they
duplicate the three field lists and are never read by any modelled
operation. -/
structure ModelInfo where
  dbTagMap : List (String × String)
  dbInsertValueMap : List (String × String)
  dbFieldsSelect : List String
  dbFieldsInsert : List String
  dbFieldsUpdate : List String
  linkedFields : List (String × String)
deriving DecidableEq

def emptyModelInfo : ModelInfo := ⟨[], [], [], [], [], []⟩

/-- One iteration of the field loop of `InitModelTagCache`. -/
def addField (info : ModelInfo) (f : ModelField) : ModelInfo :=
  if f.dbTag = "" ∨ f.dbTag = "-" then info
  else
    let modes := splitStr ',' f.dbMode
    if hasFlag modes "l" || hasFlag modes "link" then
      { info with linkedFields := info.linkedFields ++ [(f.name, f.dbTag)] }
    else if hasFlag modes "s" then
      { info with dbTagMap := (f.name, f.dbTag) :: info.dbTagMap }
    else
      { dbTagMap := (f.name, f.dbTag) :: info.dbTagMap
        dbInsertValueMap :=
          if hasFlag modes "i" && !(f.dbInsertValue = "") then
            (f.dbTag, f.dbInsertValue) :: info.dbInsertValueMap
          else info.dbInsertValueMap
        dbFieldsSelect := info.dbFieldsSelect ++ [f.dbTag]
        dbFieldsInsert :=
          if hasFlag modes "i" then info.dbFieldsInsert ++ [f.dbTag]
          else info.dbFieldsInsert
        dbFieldsUpdate :=
          if hasFlag modes "u" then info.dbFieldsUpdate ++ [f.dbTag]
          else info.dbFieldsUpdate
        linkedFields := info.linkedFields }

/-- The whole field loop of `InitModelTagCache`. -/
def buildModelInfo (fields : List ModelField) : ModelInfo :=
  fields.foldl addField emptyModelInfo

/-- The process-wide `modelFieldsCache`, threaded explicitly. -/
abbrev Cache := List (String × ModelInfo)

/-- `getModelInfo` from cache.go. -/
def getModelInfo (cache : Cache) (tableName : String) : Option ModelInfo :=
  lookupA tableName cache

/-- `InitModelTagCache` from cache.go: first registration wins; a model
shape already present for `tableName` makes the call a no-op. -/
def InitModelTagCache (cache : Cache) (model : List ModelField) (tableName : String) : Cache :=
  match getModelInfo cache tableName with
  | some _ => cache
  | none => (tableName, buildModelInfo model) :: cache

/-- Failure modes: `fatal` models a Go `panic` (non-recoverable abort),
`recoverable` models a returned `error` value. -/
inductive Failure where
  | fatal : String → Failure
  | recoverable : String → Failure
deriving DecidableEq

abbrev Res (α : Type) := Except Failure α

instance exceptDecEq {ε α : Type} [DecidableEq ε] [DecidableEq α] :
    DecidableEq (Except ε α) := fun x y =>
  match x, y with
  | Except.error a, Except.error b =>
    if h : a = b then isTrue (by rw [h])
    else isFalse (by intro hc; cases hc; exact h rfl)
  | Except.ok a, Except.ok b =>
    if h : a = b then isTrue (by rw [h])
    else isFalse (by intro hc; cases hc; exact h rfl)
  | Except.error _, Except.ok _ => isFalse (by intro hc; cases hc)
  | Except.ok _, Except.error _ => isFalse (by intro hc; cases hc)

/-- True exactly on results that model a Go panic. -/
def isFatalRes {α : Type} : Res α → Bool
  | Except.error (Failure.fatal _) => true
  | _ => false

/-- One iteration of the rendering loop of `getFieldsByMode`. -/
def renderField (tableName aliasTableName fieldName : String) : String :=
  let quotedTableName := "\"" ++ removeQuotes tableName ++ "\""
  let quotedFieldName := "\"" ++ removeQuotes fieldName ++ "\""
  if aliasTableName = "" then
    quotedTableName ++ "." ++ quotedFieldName
  else
    let a := removeQuotes aliasTableName
    "\"" ++ a ++ "\"." ++ quotedFieldName ++ " AS \"" ++ a ++ "." ++ fieldName ++ "\""

/-- `getFieldsByMode` from cache.go: panics on an unregistered table or
an unrecognized mode, otherwise renders the mode's column list. -/
def getFieldsByMode (cache : Cache) (tableName mode aliasTableName : String) :
    Res (List String × List String) :=
  match getModelInfo cache tableName with
  | none => Except.error (Failure.fatal ("table name not initialized: " ++ tableName))
  | some info =>
    let dbFields? : Option (List String) :=
      if mode = "select" then some info.dbFieldsSelect
      else if mode = "insert" then some info.dbFieldsInsert
      else if mode = "update" then some info.dbFieldsUpdate
      else none
    match dbFields? with
    | none => Except.error (Failure.fatal "invalid mode")
    | some dbFields =>
      Except.ok (dbFields.map (renderField tableName aliasTableName), dbFields)

/-- `GetSelectFields` from cache.go. -/
def GetSelectFields (cache : Cache) (tableName aliasTableName : String) :
    Res (List String × List String) :=
  getFieldsByMode cache tableName "select" aliasTableName

/-- `GetInsertFields` from cache.go. -/
def GetInsertFields (cache : Cache) (tableName : String) :
    Res (List String × List String) :=
  getFieldsByMode cache tableName "insert" ""

/-- `GetUpdateFields` from cache.go. -/
def GetUpdateFields (cache : Cache) (tableName : String) :
    Res (List String × List String) :=
  getFieldsByMode cache tableName "update" ""

/-- `GetInsertValues` from cache.go: panics on an unregistered table. -/
def GetInsertValues (cache : Cache) (tableName : String) :
    Res (List (String × String)) :=
  match getModelInfo cache tableName with
  | none => Except.error (Failure.fatal ("table name not initialized: " ++ tableName))
  | some info => Except.ok info.dbInsertValueMap

/-- `isSQLFunction` from orm.go: the fixed allow-list of default literals
that are spliced verbatim into a VALUES list. -/
def isSQLFunction (value : String) : Bool :=
  if value = "NOW()" then true
  else if value = "NULL" then true
  else if value = "true" then true
  else if value = "false" then true
  else if value = "DEFAULT" then true
  else false

/-- The column loop of `GetInsertQuery` (orm.go): returns the columns,
the VALUES-list entries and the bound arguments, threading the
placeholder counter. -/
def insertParts (valuesMap : List (String × Value)) (defaultValues : List (String × String)) :
    List String → Nat → List String × List String × List Value
  | [], _ => ([], [], [])
  | field :: rest, counter =>
    match lookupA field valuesMap with
    | some val =>
      let (cols, phs, vals) := insertParts valuesMap defaultValues rest (counter + 1)
      (field :: cols, ("$" ++ toString counter) :: phs, val :: vals)
    | none =>
      match lookupA field defaultValues with
      | some defVal =>
        if isSQLFunction defVal then
          let (cols, phs, vals) := insertParts valuesMap defaultValues rest counter
          (field :: cols, defVal :: phs, vals)
        else
          let (cols, phs, vals) := insertParts valuesMap defaultValues rest (counter + 1)
          (field :: cols, ("$" ++ toString counter) :: phs, Value.vstr defVal :: vals)
      | none =>
        let (cols, phs, vals) := insertParts valuesMap defaultValues rest counter
        (field :: cols, "DEFAULT" :: phs, vals)

/-- `GetInsertQuery` from orm.go. -/
def GetInsertQuery (cache : Cache) (tableName : String) (valuesMap : List (String × Value))
    (returning : String) : Res (String × List Value) :=
  match GetInsertFields cache tableName with
  | Except.error e => Except.error e
  | Except.ok (_, fields) =>
    match GetInsertValues cache tableName with
    | Except.error e => Except.error e
    | Except.ok defaultValues =>
      let (columns, placeholders, queryValues) := insertParts valuesMap defaultValues fields 1
      let query := "INSERT INTO \"" ++ tableName ++ "\" (" ++ joinSep "," columns
        ++ ") VALUES (" ++ joinSep "," placeholders ++ ")"
      let query :=
        if returning = "" then query
        else query ++ " RETURNING \"" ++ returning ++ "\""
      Except.ok (query, queryValues)

/-- The assignment loop of `GetUpdateQuery` (orm.go): SET clauses, bound
values, and the counter value after the loop. -/
def setParts (valuesMap : List (String × Value)) :
    List String → Nat → List String × List Value × Nat
  | [], counter => ([], [], counter)
  | field :: rest, counter =>
    match lookupA field valuesMap with
    | some value =>
      let (cls, vals, c) := setParts valuesMap rest (counter + 1)
      ((field ++ " = $" ++ toString counter) :: cls, value :: vals, c)
    | none => setParts valuesMap rest counter

/-- `GetUpdateQuery` from orm.go: panics when no updatable column is
supplied or the returning/key column's value is missing. -/
def GetUpdateQuery (cache : Cache) (tableName : String) (valuesMap : List (String × Value))
    (returning : String) : Res (String × List Value) :=
  match GetUpdateFields cache tableName with
  | Except.error e => Except.error e
  | Except.ok (_, fields) =>
    let (setClauses, queryValues, counter) := setParts valuesMap fields 1
    if setClauses.length = 0 then Except.error (Failure.fatal "No fields to update")
    else
      match lookupA returning valuesMap with
      | none => Except.error (Failure.fatal "Primary key not found in valuesMap")
      | some primaryKey =>
        let query := "UPDATE \"" ++ tableName ++ "\" SET " ++ joinSep ", " setClauses
          ++ " WHERE \"" ++ returning ++ "\" = $" ++ toString counter
          ++ " RETURNING \"" ++ returning ++ "\""
        Except.ok (query, queryValues ++ [primaryKey])

/-- Replace occurrences of the verb `%d` after the first one by the Go
missing-argument marker, as `fmt.Sprintf` does when it runs out of
arguments. -/
def substMissingPD : List Char → List Char
  | [] => []
  | '%' :: 'd' :: rest2 => "%!d(MISSING)".data ++ substMissingPD rest2
  | c :: rest => c :: substMissingPD rest

/-- Replace the first occurrence of the verb `%d` by the decimal
rendering of `n`. -/
def substFirstPD (n : Nat) : List Char → List Char
  | [] => []
  | '%' :: 'd' :: rest2 => (toString n).data ++ substMissingPD rest2
  | c :: rest => c :: substFirstPD n rest

/-- Model of `fmt.Sprintf(template, n)` for one integer argument.  Only
the `%d` verb is interpreted; this matches Go exactly whenever the text
around the verb contains no percent character, which is the situation in
every theorem below (they carry `hasPct = false` hypotheses for the
caller-controlled pieces). -/
def sprintfD (t : String) (n : Nat) : String := mkStr (substFirstPD n t.data)

/-- Whether a character list contains a percent character. -/
def hasPct : List Char → Bool
  | [] => false
  | c :: rest => if c = '%' then true else hasPct rest

/-- `getConditionString` from filters.go: the operator-token → SQL
comparison template table (`%d` is the placeholder number verb). -/
def getConditionString (operator : String) : String :=
  if operator = "$prefix" ∨ operator = "€prefix" then "LIKE $%d"
  else if operator = "$suffix" ∨ operator = "€suffix" then "LIKE $%d"
  else if operator = "$like" ∨ operator = "€like" then "LIKE $%d"
  else if operator = "$gt" then "> $%d"
  else if operator = "$gte" then ">= $%d"
  else if operator = "$lt" then "< $%d"
  else if operator = "$lte" then "<= $%d"
  else if operator = "$ne" then "!= $%d"
  else if operator = "$in" then "= ANY($%d)"
  else if operator = "$nin" then "!= ALL($%d)"
  else if operator = "$eq" ∨ operator = "€eq" then "= $%d"
  else "= $%d"

/-- Key parsing of `constructConditions`: split on the opening bracket;
the piece before it is the field name, the piece after it (with a
trailing closing bracket trimmed) is the operator token. -/
def condParse (filterKey : String) : String × String :=
  match splitStr '[' filterKey with
  | [] => ("", "")
  | [fieldName] => (fieldName, "")
  | fieldName :: second :: _ => (fieldName, trimRB second)

/-- The case-insensitive operator marker test:
`strings.HasPrefix(operator, euro-sign)`. -/
def startsWithEuro (s : String) : Bool :=
  match s.data with
  | c :: _ => if c = '€' then true else false
  | [] => false

/-- Lower-case a filter value when it is textual, as the
case-insensitive operator path does before binding. -/
def lowerIfString : Value → Value
  | Value.vstr s => Value.vstr (strToLower s)
  | v => v

/-- The entry loop of `constructConditions` (filters.go): unknown field
names are skipped; each kept entry contributes one condition string and
one argument, and advances the placeholder counter by one. -/
def condEntries (info : ModelInfo) (t : String) :
    List (String × Value) → Nat → List String × List Value
  | [], _ => ([], [])
  | (filterKey, filterValue) :: rest, argCounter =>
    let (fieldName, operator) := condParse filterKey
    match lookupA fieldName info.dbTagMap with
    | none => condEntries info t rest argCounter
    | some dbField =>
      let conditionStr := getConditionString operator
      let (condition, boundValue) :=
        if startsWithEuro operator then
          (sprintfD ("LOWER(\"" ++ t ++ "\"." ++ dbField ++ ") " ++ conditionStr) argCounter,
            lowerIfString filterValue)
        else
          (sprintfD ("\"" ++ t ++ "\"." ++ dbField ++ " " ++ conditionStr) argCounter,
            filterValue)
      let boundValue :=
        if operator = "$in" ∨ operator = "$nin" then Value.varray boundValue else boundValue
      let (conds, args) := condEntries info t rest (argCounter + 1)
      (condition :: conds, boundValue :: args)

/-- `constructConditions` from filters.go: an unregistered table yields a
returned (recoverable) error, not a panic. -/
def constructConditions (cache : Cache) (t : String)
    (filters : Option (List (String × Value))) (table : String) :
    Res (List String × List Value) :=
  match getModelInfo cache table with
  | none => Except.error (Failure.recoverable ("table name not initialized: " ++ table))
  | some info =>
    match filters with
    | none => Except.ok ([], [])
    | some entries => Except.ok (condEntries info t entries 1)

/-- The sort-entry loop of `FilterQuery`: an entry whose upper-cased
direction is neither ASC nor DESC aborts the whole call with a returned
error; entries with unknown field names are skipped. -/
def sortEntriesLoop (info : ModelInfo) (t : String) :
    List (String × String) → Res (List String)
  | [] => Except.ok []
  | (field, order) :: rest =>
    let order := strToUpper order
    if ¬ (order = "ASC") ∧ ¬ (order = "DESC") then
      Except.error (Failure.recoverable ("invalid sort order: " ++ order))
    else
      match sortEntriesLoop info t rest with
      | Except.error e => Except.error e
      | Except.ok cls =>
        match lookupA field info.dbTagMap with
        | some dbField => Except.ok (("\"" ++ t ++ "\"." ++ dbField ++ " " ++ order) :: cls)
        | none => Except.ok cls

/-- Go 64-bit signed integer wrap-around, applied where the source does
native `int` arithmetic. -/
def wrap64 (x : Int) : Int := (x + 2 ^ 63) % 2 ^ 64 - 2 ^ 63

/-- The pagination suffix `FilterQuery` always appends: page size and
offset spliced into the text as decimal literals. -/
def limitOffsetSuffix (perPage page : Int) : String :=
  " LIMIT " ++ toString perPage ++ " OFFSET " ++ toString (wrap64 ((page - 1) * perPage))

/-- `FilterQuery` from filters.go. -/
def FilterQuery (cache : Cache) (baseQuery t : String)
    (filters : Option (List (String × Value))) (sort : Option (List (String × String)))
    (table : String) (perPage page : Int) : Res (String × List Value) :=
  match constructConditions cache t filters table with
  | Except.error e => Except.error e
  | Except.ok (conditions, args) =>
    let q := if conditions.length > 0 then baseQuery ++ " WHERE " ++ joinSep " AND " conditions
      else baseQuery
    let afterSort : Res String :=
      match sort with
      | none => Except.ok q
      | some entries =>
        if entries.length > 0 then
          match getModelInfo cache table with
          | none => Except.error (Failure.fatal "nil pointer dereference")
          | some info =>
            match sortEntriesLoop info t entries with
            | Except.error e => Except.error e
            | Except.ok sortClauses =>
              Except.ok (if sortClauses.length > 0 then
                q ++ " ORDER BY " ++ joinSep ", " sortClauses else q)
        else Except.ok q
    match afterSort with
    | Except.error e => Except.error e
    | Except.ok q2 => Except.ok (q2 ++ limitOffsetSuffix perPage page, args)

/-- The regexp character class `\s` (ASCII whitespace, as in Go's regexp
package). -/
def isWS (c : Char) : Bool :=
  if c = ' ' then true
  else if c = '\t' then true
  else if c = '\n' then true
  else if c = '\r' then true
  else if c = '\x0c' then true
  else false

/-- The regexp character class `\d`. -/
def isDigitC (c : Char) : Bool := decide ('0' ≤ c ∧ c ≤ '9')

/-- Case-insensitive literal match (the `(?i)` flag on an ASCII keyword):
consumes `kw` (given lower-case) from the front of the input. -/
def matchCI : List Char → List Char → Option (List Char)
  | [], cs => some cs
  | _ :: _, [] => none
  | k :: ks, c :: cs => if lowerC c = k then matchCI ks cs else none

/-- Matcher for a pattern of shape
whitespace, keyword, whitespace-run, digit-run
(the Go regexps for the LIMIT and OFFSET clauses), returning the input
remainder after a leftmost greedy match anchored at the front. -/
def matchKwNum (kw : List Char) (cs : List Char) : Option (List Char) :=
  match cs with
  | [] => none
  | c :: rest =>
    if isWS c then
      match matchCI kw rest with
      | none => none
      | some afterKw =>
        let (ws, afterWS) := afterKw.span isWS
        if ws.isEmpty then none
        else
          let (ds, afterDs) := afterWS.span isDigitC
          if ds.isEmpty then none else some afterDs
    else none

/-- Matcher for the ORDER BY regexp: whitespace, `order`, whitespace-run,
`by`, then a whitespace character followed greedily by every further
character up to (excluding) the next closing parenthesis; the greedy tail
must span at least two characters in total, mirroring the backtracking
behaviour of the consecutive one-or-more quantifiers. -/
def matchOrderBy (cs : List Char) : Option (List Char) :=
  match cs with
  | [] => none
  | c :: rest =>
    if isWS c then
      match matchCI "order".data rest with
      | none => none
      | some afterKw =>
        let (ws1, afterWS1) := afterKw.span isWS
        if ws1.isEmpty then none
        else
          match matchCI "by".data afterWS1 with
          | none => none
          | some afterBy =>
            match afterBy with
            | [] => none
            | d :: _ =>
              if isWS d then
                let (body, restB) := afterBy.span (fun ch => if ch = ')' then false else true)
                if 2 ≤ body.length then some restB else none
              else none
    else none

/-- `ReplaceAllString(re, text, empty)`: scan left to right, deleting
every non-overlapping leftmost match.  `fuel` bounds the recursion and is
instantiated with the input length, which suffices because every matcher
above consumes at least one character. -/
def scanRepl (m : List Char → Option (List Char)) : Nat → List Char → List Char
  | 0, cs => cs
  | _ + 1, [] => []
  | fuel + 1, c :: cs =>
    match m (c :: cs) with
    | some rest => scanRepl m fuel rest
    | none => c :: scanRepl m fuel cs

/-- Model of `strings.TrimSpace` (ASCII whitespace range). -/
def trimSpaceGo (cs : List Char) : List Char :=
  ((cs.dropWhile isWSTrim).reverse.dropWhile isWSTrim).reverse
where
  isWSTrim (c : Char) : Bool := if isWS c then true else if c = '\x0b' then true else false

/-- `BuildFilterCount` from filters.go: delete LIMIT/OFFSET clauses, trim,
delete ORDER BY clauses, trim, wrap as a COUNT(*) subquery. -/
def BuildFilterCount (baseQuery : String) : String :=
  let cs := baseQuery.data
  let cs1 := scanRepl (matchKwNum "limit".data) cs.length cs
  let cs2 := scanRepl (matchKwNum "offset".data) cs1.length cs1
  let cs3 := trimSpaceGo cs2
  let cs4 := scanRepl matchOrderBy cs3.length cs3
  let cs5 := trimSpaceGo cs4
  "SELECT COUNT(*) FROM (" ++ mkStr cs5 ++ ") AS count_subquery"

/-! Sample registrations used by the concrete test cases below. -/

/-- A registry holding one table `people` with an insertable integer
column `age` and an insertable/updatable text column `name`. -/
def sampleCache : Cache :=
  InitModelTagCache [] [⟨"age", "age", "i", ""⟩, ⟨"name", "name", "i,u", ""⟩] "people"

/-- A registry holding one table `t` with columns
`id` (insertable), `name` (insertable, updatable) and
`note` (insertable, updatable, default literal `NULL`). -/
def sampleInsCache : Cache :=
  InitModelTagCache []
    [⟨"id", "id", "i", ""⟩, ⟨"name", "name", "i,u", ""⟩, ⟨"note", "note", "i,u", "NULL"⟩] "t"

/-!
Specification-side definitions.  These follow the spec's wording for the
filter/sort compiler and update builder and serve as refinement targets
for the source-translated functions above.
-/

/-- Modelled from the spec: the SQL comparison fragment the operator
table of the spec assigns to an operator token, at placeholder number
`n` (default and unrecognized tokens fall back to equality). -/
def specOperatorSQL (op : String) (n : Nat) : String :=
  if op = "$ne" then "!= $" ++ toString n
  else if op = "$gt" then "> $" ++ toString n
  else if op = "$gte" then ">= $" ++ toString n
  else if op = "$lt" then "< $" ++ toString n
  else if op = "$lte" then "<= $" ++ toString n
  else if op = "$like" ∨ op = "$prefix" ∨ op = "$suffix" then "LIKE $" ++ toString n
  else if op = "$in" then "= ANY($" ++ toString n ++ ")"
  else if op = "$nin" then "!= ALL($" ++ toString n ++ ")"
  else "= $" ++ toString n

/-- Modelled from the spec: the filter entries whose field name is
registered, each reduced to (column name, operator token, value),
in processing order. -/
def specKnown (info : ModelInfo) : List (String × Value) → List (String × String × Value)
  | [] => []
  | (k, v) :: rest =>
    match lookupA (condParse k).1 info.dbTagMap with
    | some dbField => (dbField, (condParse k).2, v) :: specKnown info rest
    | none => specKnown info rest

/-- Modelled from the spec's case-insensitive marker rule: the
comparison fragment for an operator token carrying the `€` marker —
LIKE for the three pattern tokens, equality otherwise. -/
def specEuroSQL (op : String) (n : Nat) : String :=
  if op = "€like" ∨ op = "€prefix" ∨ op = "€suffix" then "LIKE $" ++ toString n
  else "= $" ++ toString n

/-- The full per-entry condition fragment: a `€`-marked operator wraps
the column reference in LOWER(...) and uses the `€` table, every other
token uses the plain column reference and the `$` operator table. -/
def specCondition (t f op : String) (n : Nat) : String :=
  if startsWithEuro op then "LOWER(\"" ++ t ++ "\"." ++ f ++ ") " ++ specEuroSQL op n
  else "\"" ++ t ++ "\"." ++ f ++ " " ++ specOperatorSQL op n

/-- The single argument an entry binds: lower-cased first when the
operator carries the `€` marker and the value is textual, then coerced
to one array argument for `$in`/`$nin`. -/
def specBound (op : String) (v : Value) : Value :=
  if op = "$in" ∨ op = "$nin" then
    Value.varray (if startsWithEuro op then lowerIfString v else v)
  else (if startsWithEuro op then lowerIfString v else v)

/-- Condition fragments for the known entries, placeholders numbered
consecutively from `n`. -/
def specCondsAll (t : String) : Nat → List (String × String × Value) → List String
  | _, [] => []
  | n, (f, op, _) :: rest => specCondition t f op n :: specCondsAll t (n + 1) rest

/-- One positional argument per known entry. -/
def specArgsAll : List (String × String × Value) → List Value
  | [] => []
  | (_, op, v) :: rest => specBound op v :: specArgsAll rest

/-- Direction strings accepted by the sort compiler: those whose
upper-casing is ASC or DESC. -/
def validDir (o : String) : Bool :=
  if strToUpper o = "ASC" then true
  else if strToUpper o = "DESC" then true
  else false

/-- Modelled from the spec: ORDER BY fragments for the sort entries with
a registered field name, direction upper-cased, unknown fields skipped. -/
def specSortClauses (info : ModelInfo) (t : String) : List (String × String) → List String
  | [] => []
  | (f, o) :: rest =>
    match lookupA f info.dbTagMap with
    | some dbField =>
      ("\"" ++ t ++ "\"." ++ dbField ++ " " ++ strToUpper o) :: specSortClauses info t rest
    | none => specSortClauses info t rest

/-- Modelled from the spec: SET assignments for the updatable columns
present in the value map, placeholders numbered from `start`. -/
def specAssigns (valuesMap : List (String × Value)) : Nat → List String → List String
  | _, [] => []
  | start, f :: rest =>
    match lookupA f valuesMap with
    | some _ => (f ++ " = $" ++ toString start) :: specAssigns valuesMap (start + 1) rest
    | none => specAssigns valuesMap start rest

/-- Modelled from the spec: the bound values of the SET assignments, in
column order. -/
def specVals (valuesMap : List (String × Value)) : List String → List Value
  | [] => []
  | f :: rest =>
    match lookupA f valuesMap with
    | some v => v :: specVals valuesMap rest
    | none => specVals valuesMap rest

/-- A field's `db` tag is usable (non-empty, not the ignore marker). -/
def eligibleF (f : ModelField) : Bool :=
  if f.dbTag = "" ∨ f.dbTag = "-" then false else true

/-- The field carries the linked/join-only marker. -/
def linkedF (f : ModelField) : Bool :=
  hasFlag (splitStr ',' f.dbMode) "l" || hasFlag (splitStr ',' f.dbMode) "link"

/-- The field carries the skip marker. -/
def skipF (f : ModelField) : Bool := hasFlag (splitStr ',' f.dbMode) "s"

/-- The field carries the insertable marker. -/
def insF (f : ModelField) : Bool := hasFlag (splitStr ',' f.dbMode) "i"

/-- The field carries the updatable marker. -/
def updF (f : ModelField) : Bool := hasFlag (splitStr ',' f.dbMode) "u"

/-- Modelled from the spec: the selectable column list is the tags of
the eligible, non-linked, non-skip fields in declaration order. -/
def selTags : List ModelField → List String
  | [] => []
  | f :: rest =>
    if eligibleF f && !linkedF f && !skipF f then f.dbTag :: selTags rest else selTags rest

/-- Modelled from the spec: the insertable column list. -/
def insTags : List ModelField → List String
  | [] => []
  | f :: rest =>
    if eligibleF f && !linkedF f && !skipF f && insF f then f.dbTag :: insTags rest
    else insTags rest

/-- Modelled from the spec: the updatable column list. -/
def updTags : List ModelField → List String
  | [] => []
  | f :: rest =>
    if eligibleF f && !linkedF f && !skipF f && updF f then f.dbTag :: updTags rest
    else updTags rest

/-- Modelled from the spec: the linked-field alias map entries, in
declaration order. -/
def linkTags : List ModelField → List (String × String)
  | [] => []
  | f :: rest =>
    if eligibleF f && linkedF f then (f.name, f.dbTag) :: linkTags rest else linkTags rest

/-! ## Theorems -/

theorem initModelTagCache_registers (cache : Cache) (m : List ModelField) (t : String) :
    ∃ info, getModelInfo (InitModelTagCache cache m t) t = some info := by
  cases h : getModelInfo cache t with
  | some info =>
    refine ⟨info, ?_⟩
    unfold InitModelTagCache
    rw [h]
    exact h
  | none =>
    refine ⟨buildModelInfo m, ?_⟩
    unfold InitModelTagCache
    rw [h]
    show getModelInfo ((t, buildModelInfo m) :: cache) t = some (buildModelInfo m)
    simp [getModelInfo, lookupA]

/-- C1: registering a table identifier that is already present is a
no-op: after a first registration of `t`, a second `InitModelTagCache`
call for `t` — with any model shape whatsoever — returns the cache
unchanged, so every piece of cached metadata stays exactly as the first
registration produced it, and the second model's fields never influence
the result. -/
theorem initModelTagCache_reregister_noop (cache : Cache) (m1 m2 : List ModelField)
    (t : String) :
    InitModelTagCache (InitModelTagCache cache m1 t) m2 t = InitModelTagCache cache m1 t := by
  obtain ⟨info, h⟩ := initModelTagCache_registers cache m1 t
  show (match getModelInfo (InitModelTagCache cache m1 t) t with
    | some _ => InitModelTagCache cache m1 t
    | none => (t, buildModelInfo m2) :: InitModelTagCache cache m1 t)
      = InitModelTagCache cache m1 t
  rw [h]

/-- C2 counterexample: looking up the never-registered identifier `tbl`
through the filter/sort compiler does NOT fail fatally — `FilterQuery`
returns a recoverable error value, contradicting the claim that every
metadata lookup on an unregistered identifier aborts. -/
theorem filterQuery_unregistered_recoverable_cex :
    isFatalRes (FilterQuery [] "SELECT x" "tbl" none none "tbl" 10 1) = false
    ∧ FilterQuery [] "SELECT x" "tbl" none none "tbl" 10 1
        = Except.error (Failure.recoverable "table name not initialized: tbl") := by
  exact ⟨by decide, by decide⟩

/-- C2 (amended): metadata lookups on an unregistered table identifier
fail fatally in the column-list renderers (`GetSelectFields`,
`GetInsertFields`, `GetUpdateFields`) and in `GetInsertValues`, while the
filter/sort compiler `FilterQuery` instead returns a recoverable
initialization error. -/
theorem unregistered_lookup_failure_modes (cache : Cache) (table aliasT base t : String)
    (filters : Option (List (String × Value))) (sort : Option (List (String × String)))
    (pp pg : Int) (h : getModelInfo cache table = none) :
    GetSelectFields cache table aliasT
        = Except.error (Failure.fatal ("table name not initialized: " ++ table))
    ∧ GetInsertFields cache table
        = Except.error (Failure.fatal ("table name not initialized: " ++ table))
    ∧ GetUpdateFields cache table
        = Except.error (Failure.fatal ("table name not initialized: " ++ table))
    ∧ GetInsertValues cache table
        = Except.error (Failure.fatal ("table name not initialized: " ++ table))
    ∧ FilterQuery cache base t filters sort table pp pg
        = Except.error (Failure.recoverable ("table name not initialized: " ++ table)) := by
  refine ⟨?_, ?_, ?_, ?_, ?_⟩ <;>
    simp [GetSelectFields, GetInsertFields, GetUpdateFields, GetInsertValues,
      getFieldsByMode, FilterQuery, constructConditions, h]

theorem unregistered_lookup_failure_modes_witness :
    getModelInfo ([] : Cache) "tbl" = none
    ∧ (GetSelectFields ([] : Cache) "tbl" ""
        = Except.error (Failure.fatal "table name not initialized: tbl")
      ∧ GetInsertFields ([] : Cache) "tbl"
        = Except.error (Failure.fatal "table name not initialized: tbl")
      ∧ GetUpdateFields ([] : Cache) "tbl"
        = Except.error (Failure.fatal "table name not initialized: tbl")
      ∧ GetInsertValues ([] : Cache) "tbl"
        = Except.error (Failure.fatal "table name not initialized: tbl")
      ∧ FilterQuery ([] : Cache) "B" "t" none none "tbl" 10 1
        = Except.error (Failure.recoverable "table name not initialized: tbl")) := by
  refine ⟨by decide, ?_⟩
  have h := unregistered_lookup_failure_modes [] "tbl" "" "B" "t" none none 10 1 (by decide)
  simpa using h

/-- C6: `BuildFilterCount` strips trailing LIMIT/OFFSET clauses and the
ORDER BY clause with whitespace- and case-insensitive structural
matching and wraps the remainder as a COUNT(*) subquery.  The claimed
example is verified exactly, a lower-case variant with irregular spacing
shows the matching is whitespace/case-insensitive, and every output has
the claimed wrapper shape. -/
theorem buildFilterCount_strips_and_wraps :
    BuildFilterCount "SELECT * FROM t ORDER BY x LIMIT 10 OFFSET 20"
        = "SELECT COUNT(*) FROM (SELECT * FROM t) AS count_subquery"
    ∧ BuildFilterCount "select * from t Order   By x, y limit 5 offset 7"
        = "SELECT COUNT(*) FROM (select * from t) AS count_subquery"
    ∧ ∀ q : String, ∃ r : String,
        BuildFilterCount q = "SELECT COUNT(*) FROM (" ++ r ++ ") AS count_subquery" := by
  refine ⟨by decide, by decide, fun q => ⟨_, rfl⟩⟩

theorem wrap64_eq_self {x : Int} (h1 : -(2 ^ 63) ≤ x) (h2 : x < 2 ^ 63) : wrap64 x = x := by
  unfold wrap64
  have h3 : (0 : Int) ≤ x + 2 ^ 63 := by linarith
  have h4 : x + 2 ^ 63 < 2 ^ 64 := by
    have : (2 : Int) ^ 64 = 2 ^ 63 + 2 ^ 63 := by norm_num
    linarith
  rw [Int.emod_eq_of_lt h3 h4]
  ring

/-- C10: with nil or empty filter and sort maps over a registered table,
`FilterQuery` succeeds with an empty argument list and appends exactly
a LIMIT/OFFSET tail in which page size and offset (page-1)*perPage are
spliced as decimal literals (stated for offsets inside the 64-bit
range, where Go's native arithmetic does not wrap). -/
theorem filterQuery_empty_maps_pagination (cache : Cache) (table base t : String)
    (info : ModelInfo) (pp pg : Int) (hreg : getModelInfo cache table = some info)
    (h1 : -(2 ^ 63) ≤ (pg - 1) * pp) (h2 : (pg - 1) * pp < 2 ^ 63) :
    FilterQuery cache base t none none table pp pg
        = Except.ok (base ++ " LIMIT " ++ toString pp ++ " OFFSET " ++ toString ((pg - 1) * pp), [])
    ∧ FilterQuery cache base t (some []) none table pp pg
        = Except.ok (base ++ " LIMIT " ++ toString pp ++ " OFFSET " ++ toString ((pg - 1) * pp), [])
    ∧ FilterQuery cache base t none (some []) table pp pg
        = Except.ok (base ++ " LIMIT " ++ toString pp ++ " OFFSET " ++ toString ((pg - 1) * pp), [])
    ∧ FilterQuery cache base t (some []) (some []) table pp pg
        = Except.ok (base ++ " LIMIT " ++ toString pp ++ " OFFSET " ++ toString ((pg - 1) * pp), []) := by
  have hw : wrap64 ((pg - 1) * pp) = (pg - 1) * pp := wrap64_eq_self h1 h2
  refine ⟨?_, ?_, ?_, ?_⟩ <;>
    simp [FilterQuery, constructConditions, hreg, condEntries, limitOffsetSuffix, hw,
      String.append_assoc]

theorem filterQuery_empty_maps_pagination_witness :
    getModelInfo sampleCache "people" = some (buildModelInfo
      [⟨"age", "age", "i", ""⟩, ⟨"name", "name", "i,u", ""⟩])
    ∧ -(2 ^ 63) ≤ ((2 : Int) - 1) * 10 ∧ ((2 : Int) - 1) * 10 < 2 ^ 63
    ∧ FilterQuery sampleCache "B" "people" none none "people" 10 2
        = Except.ok ("B LIMIT 10 OFFSET 10", []) := by
  refine ⟨by decide, by decide, by decide, ?_⟩
  have h := (filterQuery_empty_maps_pagination sampleCache "people" "B" "people"
    (buildModelInfo [⟨"age", "age", "i", ""⟩, ⟨"name", "name", "i,u", ""⟩]) 10 2
    (by decide) (by decide) (by decide)).1
  rw [h]
  decide

theorem insertParts_shapes (vm : List (String × Value)) (dv : List (String × String)) :
    ∀ (fields : List String) (counter : Nat),
      (insertParts vm dv fields counter).1 = fields
      ∧ ∀ ph ∈ (insertParts vm dv fields counter).2.1,
          (∃ n : Nat, ph = "$" ++ toString n) ∨ isSQLFunction ph = true ∨ ph = "DEFAULT" := by
  intro fields
  induction fields with
  | nil => exact fun _ => ⟨rfl, by intro ph h; cases h⟩
  | cons f rest ih =>
    intro counter
    cases hv : lookupA f vm with
    | some val =>
      rcases hrec : insertParts vm dv rest (counter + 1) with ⟨cols, phs, vals⟩
      have ih2 := ih (counter + 1)
      rw [hrec] at ih2
      refine ⟨?_, ?_⟩
      · simp [insertParts, hv, hrec, ih2.1]
      · intro ph hmem
        simp [insertParts, hv, hrec] at hmem
        rcases hmem with h | h
        · exact Or.inl ⟨counter, h⟩
        · exact ih2.2 ph h
    | none =>
      cases hd : lookupA f dv with
      | some defVal =>
        by_cases hf : isSQLFunction defVal = true
        · rcases hrec : insertParts vm dv rest counter with ⟨cols, phs, vals⟩
          have ih2 := ih counter
          rw [hrec] at ih2
          refine ⟨?_, ?_⟩
          · simp [insertParts, hv, hd, hf, hrec, ih2.1]
          · intro ph hmem
            simp [insertParts, hv, hd, hf, hrec] at hmem
            rcases hmem with h | h
            · exact Or.inr (Or.inl (h ▸ hf))
            · exact ih2.2 ph h
        · rcases hrec : insertParts vm dv rest (counter + 1) with ⟨cols, phs, vals⟩
          have ih2 := ih (counter + 1)
          rw [hrec] at ih2
          refine ⟨?_, ?_⟩
          · simp [insertParts, hv, hd, hf, hrec, ih2.1]
          · intro ph hmem
            simp [insertParts, hv, hd, hf, hrec] at hmem
            rcases hmem with h | h
            · exact Or.inl ⟨counter, h⟩
            · exact ih2.2 ph h
      | none =>
        rcases hrec : insertParts vm dv rest counter with ⟨cols, phs, vals⟩
        have ih2 := ih counter
        rw [hrec] at ih2
        refine ⟨?_, ?_⟩
        · simp [insertParts, hv, hd, hrec, ih2.1]
        · intro ph hmem
          simp [insertParts, hv, hd, hrec] at hmem
          rcases hmem with h | h
          · exact Or.inr (Or.inr h)
          · exact ih2.2 ph h

/-- C7: `GetInsertQuery` walks the insertable columns in declaration
order (the emitted column list is exactly the metadata's insert list);
every VALUES-list entry is either a positional placeholder, one of the
five allow-listed keyword literals, or the bare keyword DEFAULT — so
non-keyword default text is never spliced into the statement; and on the
claimed example table the produced statement binds exactly two
parameters and a literal NULL for `note`, in declared column order. -/
theorem getInsertQuery_placeholder_policy (vm : List (String × Value))
    (dv : List (String × String)) (fields : List String) (counter : Nat) :
    ((insertParts vm dv fields counter).1 = fields
      ∧ ∀ ph ∈ (insertParts vm dv fields counter).2.1,
          (∃ n : Nat, ph = "$" ++ toString n) ∨ isSQLFunction ph = true ∨ ph = "DEFAULT")
    ∧ GetInsertQuery sampleInsCache "t" [("id", Value.vstr "u1"), ("name", Value.vstr "n")] ""
        = Except.ok ("INSERT INTO \"t\" (id,name,note) VALUES ($1,$2,NULL)",
            [Value.vstr "u1", Value.vstr "n"]) := by
  exact ⟨insertParts_shapes vm dv fields counter, by decide⟩

theorem getInsertQuery_placeholder_policy_witness :
    (∃ n : Nat, "$1" = "$" ++ toString n) ∨ isSQLFunction "$1" = true ∨ "$1" = "DEFAULT" := by
  have h := (getInsertQuery_placeholder_policy [("id", Value.vstr "u1")]
    [("note", "NULL")] ["id", "note"] 1).1.2
  exact h "$1" (by decide)

theorem setParts_spec (vm : List (String × Value)) :
    ∀ (fields : List String) (start : Nat),
      setParts vm fields start
        = (specAssigns vm start fields, specVals vm fields,
            start + (specVals vm fields).length) := by
  intro fields
  induction fields with
  | nil => intro start; simp [setParts, specAssigns, specVals]
  | cons f rest ih =>
    intro start
    cases hv : lookupA f vm with
    | some val =>
      rw [setParts, hv, ih (start + 1)]
      simp [specAssigns, specVals, hv]
      omega
    | none =>
      rw [setParts, hv, ih start]
      simp [specAssigns, specVals, hv]

theorem specAssigns_nil_iff (vm : List (String × Value)) :
    ∀ (fields : List String) (start : Nat),
      specAssigns vm start fields = [] ↔ ∀ f ∈ fields, lookupA f vm = none := by
  intro fields
  induction fields with
  | nil => intro start; simp [specAssigns]
  | cons f rest ih =>
    intro start
    cases hv : lookupA f vm with
    | some val => simp [specAssigns, hv]
    | none => simp [specAssigns, hv, ih start]

/-- C8: over a registered table, `GetUpdateQuery` fails fatally when the
value map selects no updatable column; when some updatable column is
selected but the designated returning/key column's value is absent it
also fails fatally, producing no statement; and on success the SET list
covers exactly the updatable columns present in the value map, in
declared order, with the key value bound as the final argument to the
final placeholder of the WHERE clause. -/
theorem getUpdateQuery_key_policy (cache : Cache) (table returning : String)
    (info : ModelInfo) (vm : List (String × Value))
    (hreg : getModelInfo cache table = some info) :
    ((∀ f ∈ info.dbFieldsUpdate, lookupA f vm = none) →
        GetUpdateQuery cache table vm returning
          = Except.error (Failure.fatal "No fields to update"))
    ∧ ((∃ f ∈ info.dbFieldsUpdate, (lookupA f vm).isSome = true) →
        lookupA returning vm = none →
        GetUpdateQuery cache table vm returning
          = Except.error (Failure.fatal "Primary key not found in valuesMap"))
    ∧ (∀ pk : Value, (∃ f ∈ info.dbFieldsUpdate, (lookupA f vm).isSome = true) →
        lookupA returning vm = some pk →
        GetUpdateQuery cache table vm returning
          = Except.ok ("UPDATE \"" ++ table ++ "\" SET "
              ++ joinSep ", " (specAssigns vm 1 info.dbFieldsUpdate)
              ++ " WHERE \"" ++ returning ++ "\" = $"
              ++ toString (1 + (specVals vm info.dbFieldsUpdate).length)
              ++ " RETURNING \"" ++ returning ++ "\"",
            specVals vm info.dbFieldsUpdate ++ [pk])) := by
  have hupd : GetUpdateFields cache table
      = Except.ok (info.dbFieldsUpdate.map (renderField table ""), info.dbFieldsUpdate) := by
    simp [GetUpdateFields, getFieldsByMode, hreg]
  refine ⟨?_, ?_, ?_⟩
  · intro hall
    have hnil : specAssigns vm 1 info.dbFieldsUpdate = [] :=
      (specAssigns_nil_iff vm info.dbFieldsUpdate 1).mpr hall
    simp [GetUpdateQuery, hupd, setParts_spec, hnil]
  · intro hex hret
    have hne : ¬ specAssigns vm 1 info.dbFieldsUpdate = [] := by
      intro hnil
      obtain ⟨f, hf, hs⟩ := hex
      have := (specAssigns_nil_iff vm info.dbFieldsUpdate 1).mp hnil f hf
      rw [this] at hs
      exact Bool.noConfusion hs
    simp [GetUpdateQuery, hupd, setParts_spec, List.length_eq_zero, hne, hret]
  · intro pk hex hret
    have hne : ¬ specAssigns vm 1 info.dbFieldsUpdate = [] := by
      intro hnil
      obtain ⟨f, hf, hs⟩ := hex
      have := (specAssigns_nil_iff vm info.dbFieldsUpdate 1).mp hnil f hf
      rw [this] at hs
      exact Bool.noConfusion hs
    simp [GetUpdateQuery, hupd, setParts_spec, List.length_eq_zero, hne, hret]

theorem getUpdateQuery_key_policy_witness :
    GetUpdateQuery sampleInsCache "t" [("name", Value.vstr "n")] "id"
      = Except.error (Failure.fatal "Primary key not found in valuesMap") := by
  have h := (getUpdateQuery_key_policy sampleInsCache "t" "id"
    (buildModelInfo
      [⟨"id", "id", "i", ""⟩, ⟨"name", "name", "i,u", ""⟩, ⟨"note", "note", "i,u", "NULL"⟩])
    [("name", Value.vstr "n")] (by decide)).2.1
  exact h (by decide) (by decide)

theorem addField_components (acc : ModelInfo) (f : ModelField) :
    (addField acc f).dbFieldsSelect
        = acc.dbFieldsSelect ++ (if eligibleF f && !linkedF f && !skipF f then [f.dbTag] else [])
    ∧ (addField acc f).dbFieldsInsert
        = acc.dbFieldsInsert
          ++ (if eligibleF f && !linkedF f && !skipF f && insF f then [f.dbTag] else [])
    ∧ (addField acc f).dbFieldsUpdate
        = acc.dbFieldsUpdate
          ++ (if eligibleF f && !linkedF f && !skipF f && updF f then [f.dbTag] else [])
    ∧ (addField acc f).linkedFields
        = acc.linkedFields ++ (if eligibleF f && linkedF f then [(f.name, f.dbTag)] else []) := by
  by_cases he : f.dbTag = "" ∨ f.dbTag = "-"
  · have heb : eligibleF f = false := by simp [eligibleF, he]
    simp [addField, he, heb]
  · have heb : eligibleF f = true := by simp [eligibleF, he]
    by_cases hl : (hasFlag (splitStr ',' f.dbMode) "l" || hasFlag (splitStr ',' f.dbMode) "link")
        = true
    · have hlb : linkedF f = true := hl
      simp [addField, he, hl, heb, hlb]
    · have hlb : linkedF f = false := by
        rw [linkedF]
        exact Bool.not_eq_true _ ▸ (by simpa using hl)
      by_cases hs : hasFlag (splitStr ',' f.dbMode) "s" = true
      · have hsb : skipF f = true := hs
        simp [addField, he, hl, hs, heb, hlb, hsb]
      · have hsb : skipF f = false := by simpa [skipF] using hs
        simp only [addField, he, hl, hs, heb, hlb, hsb, insF, updF]
        refine ⟨by simp, ?_, ?_, by simp⟩
        · by_cases hi : hasFlag (splitStr ',' f.dbMode) "i" = true <;> simp [hi]
        · by_cases hu : hasFlag (splitStr ',' f.dbMode) "u" = true <;> simp [hu]

theorem foldl_addField_spec :
    ∀ (fields : List ModelField) (acc : ModelInfo),
      (List.foldl addField acc fields).dbFieldsSelect = acc.dbFieldsSelect ++ selTags fields
      ∧ (List.foldl addField acc fields).dbFieldsInsert = acc.dbFieldsInsert ++ insTags fields
      ∧ (List.foldl addField acc fields).dbFieldsUpdate = acc.dbFieldsUpdate ++ updTags fields
      ∧ (List.foldl addField acc fields).linkedFields = acc.linkedFields ++ linkTags fields := by
  intro fields
  induction fields with
  | nil => intro acc; simp [selTags, insTags, updTags, linkTags]
  | cons f rest ih =>
    intro acc
    have hstep := addField_components acc f
    have htail := ih (addField acc f)
    refine ⟨?_, ?_, ?_, ?_⟩
    · rw [List.foldl_cons, htail.1, hstep.1, selTags, List.append_assoc]
      by_cases h : (eligibleF f && !linkedF f && !skipF f) = true <;> simp [h]
    · rw [List.foldl_cons, htail.2.1, hstep.2.1, insTags, List.append_assoc]
      by_cases h : (eligibleF f && !linkedF f && !skipF f && insF f) = true <;> simp [h]
    · rw [List.foldl_cons, htail.2.2.1, hstep.2.2.1, updTags, List.append_assoc]
      by_cases h : (eligibleF f && !linkedF f && !skipF f && updF f) = true <;> simp [h]
    · rw [List.foldl_cons, htail.2.2.2, hstep.2.2.2, linkTags, List.append_assoc]
      by_cases h : (eligibleF f && linkedF f) = true <;> simp [h]

theorem buildModelInfo_lists (fields : List ModelField) :
    (buildModelInfo fields).dbFieldsSelect = selTags fields
    ∧ (buildModelInfo fields).dbFieldsInsert = insTags fields
    ∧ (buildModelInfo fields).dbFieldsUpdate = updTags fields
    ∧ (buildModelInfo fields).linkedFields = linkTags fields := by
  have h := foldl_addField_spec fields emptyModelInfo
  simpa [buildModelInfo, emptyModelInfo] using h

theorem mem_selTags {x : String} :
    ∀ {fields : List ModelField}, x ∈ selTags fields →
      ∃ g ∈ fields, (eligibleF g && !linkedF g && !skipF g) = true ∧ x = g.dbTag := by
  intro fields
  induction fields with
  | nil => intro h; cases h
  | cons f rest ih =>
    intro h
    rw [selTags] at h
    by_cases hc : (eligibleF f && !linkedF f && !skipF f) = true
    · rw [if_pos hc] at h
      rcases List.mem_cons.mp h with h | h
      · exact ⟨f, List.mem_cons_self f rest, hc, h⟩
      · obtain ⟨g, hg, hgc, hgx⟩ := ih h
        exact ⟨g, List.mem_cons_of_mem f hg, hgc, hgx⟩
    · rw [if_neg hc] at h
      obtain ⟨g, hg, hgc, hgx⟩ := ih h
      exact ⟨g, List.mem_cons_of_mem f hg, hgc, hgx⟩

theorem mem_insTags {x : String} :
    ∀ {fields : List ModelField}, x ∈ insTags fields →
      ∃ g ∈ fields, (eligibleF g && !linkedF g && !skipF g) = true ∧ x = g.dbTag := by
  intro fields
  induction fields with
  | nil => intro h; cases h
  | cons f rest ih =>
    intro h
    rw [insTags] at h
    by_cases hc : (eligibleF f && !linkedF f && !skipF f && insF f) = true
    · rw [if_pos hc] at h
      rcases List.mem_cons.mp h with h | h
      · refine ⟨f, List.mem_cons_self f rest, ?_, h⟩
        simp only [Bool.and_eq_true] at hc ⊢
        exact hc.1
      · obtain ⟨g, hg, hgc, hgx⟩ := ih h
        exact ⟨g, List.mem_cons_of_mem f hg, hgc, hgx⟩
    · rw [if_neg hc] at h
      obtain ⟨g, hg, hgc, hgx⟩ := ih h
      exact ⟨g, List.mem_cons_of_mem f hg, hgc, hgx⟩

theorem mem_updTags {x : String} :
    ∀ {fields : List ModelField}, x ∈ updTags fields →
      ∃ g ∈ fields, (eligibleF g && !linkedF g && !skipF g) = true ∧ x = g.dbTag := by
  intro fields
  induction fields with
  | nil => intro h; cases h
  | cons f rest ih =>
    intro h
    rw [updTags] at h
    by_cases hc : (eligibleF f && !linkedF f && !skipF f && updF f) = true
    · rw [if_pos hc] at h
      rcases List.mem_cons.mp h with h | h
      · refine ⟨f, List.mem_cons_self f rest, ?_, h⟩
        simp only [Bool.and_eq_true] at hc ⊢
        exact hc.1
      · obtain ⟨g, hg, hgc, hgx⟩ := ih h
        exact ⟨g, List.mem_cons_of_mem f hg, hgc, hgx⟩
    · rw [if_neg hc] at h
      obtain ⟨g, hg, hgc, hgx⟩ := ih h
      exact ⟨g, List.mem_cons_of_mem f hg, hgc, hgx⟩

theorem linkTags_mem (f : ModelField) :
    ∀ {fields : List ModelField}, f ∈ fields → eligibleF f = true → linkedF f = true →
      (f.name, f.dbTag) ∈ linkTags fields := by
  intro fields
  induction fields with
  | nil => intro h; cases h
  | cons g rest ih =>
    intro hmem he hl
    rw [linkTags]
    rcases List.mem_cons.mp hmem with h | h
    · subst h
      rw [if_pos (by simp [he, hl])]
      exact List.mem_cons_self _ _
    · by_cases hc : (eligibleF g && linkedF g) = true
      · rw [if_pos hc]
        exact List.mem_cons_of_mem _ (ih h he hl)
      · rw [if_neg hc]
        exact ih h he hl

/-- C9: in the metadata built by registration, a field carrying the skip
marker or the linked/join-only marker contributes to none of the
selectable/insertable/updatable column lists — stated for a field whose
column tag is not shared with another field, so that membership of the
tag reflects membership of the field — and an eligible linked field is
recorded in the linked-field alias map as its structural field name
paired with its join alias. -/
theorem skip_linked_fields_excluded (fields : List ModelField) (f : ModelField)
    (hmem : f ∈ fields) (helig : eligibleF f = true)
    (huniq : ∀ g ∈ fields, g.dbTag = f.dbTag → g = f)
    (hflag : skipF f = true ∨ linkedF f = true) :
    f.dbTag ∉ (buildModelInfo fields).dbFieldsSelect
    ∧ f.dbTag ∉ (buildModelInfo fields).dbFieldsInsert
    ∧ f.dbTag ∉ (buildModelInfo fields).dbFieldsUpdate
    ∧ (linkedF f = true → (f.name, f.dbTag) ∈ (buildModelInfo fields).linkedFields) := by
  obtain ⟨hsel, hins, hupd, hlink⟩ := buildModelInfo_lists fields
  refine ⟨?_, ?_, ?_, ?_⟩
  · rw [hsel]
    intro hin
    obtain ⟨g, hg, hgc, hgx⟩ := mem_selTags hin
    have hgf : g = f := huniq g hg hgx.symm
    subst hgf
    rcases hflag with h | h <;> simp [h] at hgc
  · rw [hins]
    intro hin
    obtain ⟨g, hg, hgc, hgx⟩ := mem_insTags hin
    have hgf : g = f := huniq g hg hgx.symm
    subst hgf
    rcases hflag with h | h <;> simp [h] at hgc
  · rw [hupd]
    intro hin
    obtain ⟨g, hg, hgc, hgx⟩ := mem_updTags hin
    have hgf : g = f := huniq g hg hgx.symm
    subst hgf
    rcases hflag with h | h <;> simp [h] at hgc
  · intro hl
    rw [hlink]
    exact linkTags_mem f hmem helig hl

theorem skip_linked_fields_excluded_witness :
    ("a" ∉ (buildModelInfo
        [⟨"A", "a", "s", ""⟩, ⟨"B", "b", "l", ""⟩, ⟨"C", "c", "i,u", ""⟩]).dbFieldsSelect
      ∧ "a" ∉ (buildModelInfo
        [⟨"A", "a", "s", ""⟩, ⟨"B", "b", "l", ""⟩, ⟨"C", "c", "i,u", ""⟩]).dbFieldsInsert
      ∧ "a" ∉ (buildModelInfo
        [⟨"A", "a", "s", ""⟩, ⟨"B", "b", "l", ""⟩, ⟨"C", "c", "i,u", ""⟩]).dbFieldsUpdate
      ∧ (linkedF ⟨"A", "a", "s", ""⟩ = true → ("A", "a") ∈ (buildModelInfo
        [⟨"A", "a", "s", ""⟩, ⟨"B", "b", "l", ""⟩, ⟨"C", "c", "i,u", ""⟩]).linkedFields))
    ∧ ("B", "b") ∈ (buildModelInfo
        [⟨"A", "a", "s", ""⟩, ⟨"B", "b", "l", ""⟩, ⟨"C", "c", "i,u", ""⟩]).linkedFields := by
  constructor
  · exact skip_linked_fields_excluded
      [⟨"A", "a", "s", ""⟩, ⟨"B", "b", "l", ""⟩, ⟨"C", "c", "i,u", ""⟩]
      ⟨"A", "a", "s", ""⟩ (by decide) (by decide) (by decide) (Or.inl (by decide))
  · exact (skip_linked_fields_excluded
      [⟨"A", "a", "s", ""⟩, ⟨"B", "b", "l", ""⟩, ⟨"C", "c", "i,u", ""⟩]
      ⟨"B", "b", "l", ""⟩ (by decide) (by decide) (by decide) (Or.inr (by decide))).2.2.2
        (by decide)

theorem substFirstPD_cons (n : Nat) (c : Char) (cs : List Char) (hc : ¬ c = '%') :
    substFirstPD n (c :: cs) = c :: substFirstPD n cs := by
  cases cs with
  | nil => simp [substFirstPD, hc]
  | cons d cs2 => simp [substFirstPD, hc]

theorem substFirstPD_append (n : Nat) (l m : List Char) (h : hasPct l = false) :
    substFirstPD n (l ++ m) = l ++ substFirstPD n m := by
  induction l with
  | nil => rfl
  | cons c l ih =>
    have hc : ¬ c = '%' := by
      intro hc2
      rw [hasPct, if_pos hc2] at h
      exact Bool.noConfusion h
    have hl : hasPct l = false := by
      rwa [hasPct, if_neg hc] at h
    rw [List.cons_append, substFirstPD_cons n c (l ++ m) hc, ih hl, List.cons_append]

theorem hasPct_append (l m : List Char) : hasPct (l ++ m) = (hasPct l || hasPct m) := by
  induction l with
  | nil => simp [hasPct]
  | cons c l ih =>
    by_cases hc : c = '%' <;> simp [hasPct, hc, ih]

theorem substPD_like (n : Nat) : substFirstPD n "LIKE $%d".data = ("LIKE $" ++ toString n).data := by
  have h : substFirstPD n "LIKE $%d".data
      = "LIKE $".data ++ ((toString n).data ++ substMissingPD []) := rfl
  rw [h]
  simp [substMissingPD, String.data]

theorem substPD_gt (n : Nat) : substFirstPD n "> $%d".data = ("> $" ++ toString n).data := by
  have h : substFirstPD n "> $%d".data
      = "> $".data ++ ((toString n).data ++ substMissingPD []) := rfl
  rw [h]
  simp [substMissingPD, String.data]

theorem substPD_gte (n : Nat) : substFirstPD n ">= $%d".data = (">= $" ++ toString n).data := by
  have h : substFirstPD n ">= $%d".data
      = ">= $".data ++ ((toString n).data ++ substMissingPD []) := rfl
  rw [h]
  simp [substMissingPD, String.data]

theorem substPD_lt (n : Nat) : substFirstPD n "< $%d".data = ("< $" ++ toString n).data := by
  have h : substFirstPD n "< $%d".data
      = "< $".data ++ ((toString n).data ++ substMissingPD []) := rfl
  rw [h]
  simp [substMissingPD, String.data]

theorem substPD_lte (n : Nat) : substFirstPD n "<= $%d".data = ("<= $" ++ toString n).data := by
  have h : substFirstPD n "<= $%d".data
      = "<= $".data ++ ((toString n).data ++ substMissingPD []) := rfl
  rw [h]
  simp [substMissingPD, String.data]

theorem substPD_ne (n : Nat) : substFirstPD n "!= $%d".data = ("!= $" ++ toString n).data := by
  have h : substFirstPD n "!= $%d".data
      = "!= $".data ++ ((toString n).data ++ substMissingPD []) := rfl
  rw [h]
  simp [substMissingPD, String.data]

theorem substPD_eq (n : Nat) : substFirstPD n "= $%d".data = ("= $" ++ toString n).data := by
  have h : substFirstPD n "= $%d".data
      = "= $".data ++ ((toString n).data ++ substMissingPD []) := rfl
  rw [h]
  simp [substMissingPD, String.data]

theorem substPD_any (n : Nat) :
    substFirstPD n "= ANY($%d)".data = ("= ANY($" ++ toString n ++ ")").data := by
  have h : substFirstPD n "= ANY($%d)".data
      = "= ANY($".data ++ ((toString n).data ++ substMissingPD ")".data) := rfl
  rw [h]
  simp [substMissingPD, String.data]

theorem substPD_all (n : Nat) :
    substFirstPD n "!= ALL($%d)".data = ("!= ALL($" ++ toString n ++ ")").data := by
  have h : substFirstPD n "!= ALL($%d)".data
      = "!= ALL($".data ++ ((toString n).data ++ substMissingPD ")".data) := rfl
  rw [h]
  simp [substMissingPD, String.data]

theorem condString_applied (op : String) (n : Nat) (hE : startsWithEuro op = false) :
    substFirstPD n (getConditionString op).data = (specOperatorSQL op n).data := by
  have hp2 : ¬ op = "€prefix" := by intro h; subst h; exact absurd hE (by decide)
  have hs2 : ¬ op = "€suffix" := by intro h; subst h; exact absurd hE (by decide)
  have hl2 : ¬ op = "€like" := by intro h; subst h; exact absurd hE (by decide)
  have he2 : ¬ op = "€eq" := by intro h; subst h; exact absurd hE (by decide)
  by_cases hp1 : op = "$prefix"
  · subst hp1
    rw [show getConditionString "$prefix" = "LIKE $%d" from by decide,
      show specOperatorSQL "$prefix" n = "LIKE $" ++ toString n from rfl]
    exact substPD_like n
  by_cases hs1 : op = "$suffix"
  · subst hs1
    rw [show getConditionString "$suffix" = "LIKE $%d" from by decide,
      show specOperatorSQL "$suffix" n = "LIKE $" ++ toString n from rfl]
    exact substPD_like n
  by_cases hl1 : op = "$like"
  · subst hl1
    rw [show getConditionString "$like" = "LIKE $%d" from by decide,
      show specOperatorSQL "$like" n = "LIKE $" ++ toString n from rfl]
    exact substPD_like n
  by_cases hgt : op = "$gt"
  · subst hgt
    rw [show getConditionString "$gt" = "> $%d" from by decide,
      show specOperatorSQL "$gt" n = "> $" ++ toString n from rfl]
    exact substPD_gt n
  by_cases hgte : op = "$gte"
  · subst hgte
    rw [show getConditionString "$gte" = ">= $%d" from by decide,
      show specOperatorSQL "$gte" n = ">= $" ++ toString n from rfl]
    exact substPD_gte n
  by_cases hlt : op = "$lt"
  · subst hlt
    rw [show getConditionString "$lt" = "< $%d" from by decide,
      show specOperatorSQL "$lt" n = "< $" ++ toString n from rfl]
    exact substPD_lt n
  by_cases hlte : op = "$lte"
  · subst hlte
    rw [show getConditionString "$lte" = "<= $%d" from by decide,
      show specOperatorSQL "$lte" n = "<= $" ++ toString n from rfl]
    exact substPD_lte n
  by_cases hne : op = "$ne"
  · subst hne
    rw [show getConditionString "$ne" = "!= $%d" from by decide,
      show specOperatorSQL "$ne" n = "!= $" ++ toString n from rfl]
    exact substPD_ne n
  by_cases hin : op = "$in"
  · subst hin
    rw [show getConditionString "$in" = "= ANY($%d)" from by decide,
      show specOperatorSQL "$in" n = "= ANY($" ++ toString n ++ ")" from rfl]
    exact substPD_any n
  by_cases hnin : op = "$nin"
  · subst hnin
    rw [show getConditionString "$nin" = "!= ALL($%d)" from by decide,
      show specOperatorSQL "$nin" n = "!= ALL($" ++ toString n ++ ")" from rfl]
    exact substPD_all n
  by_cases heq : op = "$eq"
  · subst heq
    rw [show getConditionString "$eq" = "= $%d" from by decide,
      show specOperatorSQL "$eq" n = "= $" ++ toString n from rfl]
    exact substPD_eq n
  · have hg : getConditionString op = "= $%d" := by
      simp only [getConditionString, hp1, hp2, hs1, hs2, hl1, hl2, hgt, hgte, hlt, hlte,
        hne, hin, hnin, heq, he2, or_self, if_false, ite_false]
    have hsp : specOperatorSQL op n = "= $" ++ toString n := by
      simp only [specOperatorSQL, hp1, hs1, hl1, hgt, hgte, hlt, hlte, hne, hin, hnin,
        or_self, if_false, ite_false]
    rw [hg, hsp]
    exact substPD_eq n

theorem sprintfD_cond_split (A op : String) (n : Nat)
    (hA : hasPct A.data = false) (hE : startsWithEuro op = false) :
    sprintfD (A ++ getConditionString op) n = A ++ specOperatorSQL op n := by
  unfold sprintfD
  have hdata : (A ++ getConditionString op).data = A.data ++ (getConditionString op).data := rfl
  rw [hdata, substFirstPD_append n _ _ hA, condString_applied op n hE]
  rfl

theorem condString_applied_euro (op : String) (n : Nat) (hE : startsWithEuro op = true) :
    substFirstPD n (getConditionString op).data = (specEuroSQL op n).data := by
  have hp1 : ¬ op = "$prefix" := by intro h; subst h; exact absurd hE (by decide)
  have hs1 : ¬ op = "$suffix" := by intro h; subst h; exact absurd hE (by decide)
  have hl1 : ¬ op = "$like" := by intro h; subst h; exact absurd hE (by decide)
  have hgt : ¬ op = "$gt" := by intro h; subst h; exact absurd hE (by decide)
  have hgte : ¬ op = "$gte" := by intro h; subst h; exact absurd hE (by decide)
  have hlt : ¬ op = "$lt" := by intro h; subst h; exact absurd hE (by decide)
  have hlte : ¬ op = "$lte" := by intro h; subst h; exact absurd hE (by decide)
  have hne : ¬ op = "$ne" := by intro h; subst h; exact absurd hE (by decide)
  have hin : ¬ op = "$in" := by intro h; subst h; exact absurd hE (by decide)
  have hnin : ¬ op = "$nin" := by intro h; subst h; exact absurd hE (by decide)
  have heq1 : ¬ op = "$eq" := by intro h; subst h; exact absurd hE (by decide)
  by_cases hp2 : op = "€prefix"
  · subst hp2
    rw [show getConditionString "€prefix" = "LIKE $%d" from by decide,
      show specEuroSQL "€prefix" n = "LIKE $" ++ toString n from rfl]
    exact substPD_like n
  by_cases hs2 : op = "€suffix"
  · subst hs2
    rw [show getConditionString "€suffix" = "LIKE $%d" from by decide,
      show specEuroSQL "€suffix" n = "LIKE $" ++ toString n from rfl]
    exact substPD_like n
  by_cases hl2 : op = "€like"
  · subst hl2
    rw [show getConditionString "€like" = "LIKE $%d" from by decide,
      show specEuroSQL "€like" n = "LIKE $" ++ toString n from rfl]
    exact substPD_like n
  · have hg : getConditionString op = "= $%d" := by
      simp only [getConditionString, hp1, hp2, hs1, hs2, hl1, hl2, hgt, hgte, hlt, hlte,
        hne, hin, hnin, heq1, or_self, if_false, ite_false, false_or]
      split <;> rfl
    have hsp : specEuroSQL op n = "= $" ++ toString n := by
      simp only [specEuroSQL, hl2, hp2, hs2, or_self, if_false, ite_false]
    rw [hg, hsp]
    exact substPD_eq n

theorem sprintfD_cond_split_euro (A op : String) (n : Nat)
    (hA : hasPct A.data = false) (hE : startsWithEuro op = true) :
    sprintfD (A ++ getConditionString op) n = A ++ specEuroSQL op n := by
  unfold sprintfD
  have hdata : (A ++ getConditionString op).data = A.data ++ (getConditionString op).data := rfl
  rw [hdata, substFirstPD_append n _ _ hA, condString_applied_euro op n hE]
  rfl

theorem specArgsAll_length : ∀ known : List (String × String × Value),
    (specArgsAll known).length = known.length := by
  intro known
  induction known with
  | nil => rfl
  | cons x rest ih =>
    obtain ⟨f, op, v⟩ := x
    simp [specArgsAll, ih]

theorem specCondsAll_length (t : String) :
    ∀ (known : List (String × String × Value)) (n : Nat),
      (specCondsAll t n known).length = known.length := by
  intro known
  induction known with
  | nil => intro n; rfl
  | cons x rest ih =>
    intro n
    obtain ⟨f, op, v⟩ := x
    simp [specCondsAll, ih]

theorem condEntries_spec_all (info : ModelInfo) (t : String) :
    ∀ (entries : List (String × Value)) (start : Nat),
      hasPct t.data = false →
      (∀ x ∈ specKnown info entries, hasPct x.1.data = false) →
      condEntries info t entries start
        = (specCondsAll t start (specKnown info entries),
            specArgsAll (specKnown info entries)) := by
  intro entries
  induction entries with
  | nil => intro start _ _; rfl
  | cons e rest ih =>
    intro start ht hf
    obtain ⟨k, v⟩ := e
    rcases hcp : condParse k with ⟨fieldName, operator⟩
    cases hl : lookupA fieldName info.dbTagMap with
    | none =>
      have hknown : specKnown info ((k, v) :: rest) = specKnown info rest := by
        simp [specKnown, hcp, hl]
      rw [hknown]
      have hstep : condEntries info t ((k, v) :: rest) start
          = condEntries info t rest start := by
        simp [condEntries, hcp, hl]
      rw [hstep]
      refine ih start ht ?_
      intro x hx
      exact hf x (by rw [hknown]; exact hx)
    | some dbField =>
      have hknown : specKnown info ((k, v) :: rest)
          = (dbField, operator, v) :: specKnown info rest := by
        simp [specKnown, hcp, hl]
      have hfd : hasPct dbField.data = false := by
        have h := hf (dbField, operator, v) (by rw [hknown]; exact List.mem_cons_self _ _)
        exact h
      have htail := ih (start + 1) ht
        (by
          intro x hx
          exact hf x (by rw [hknown]; exact List.mem_cons_of_mem _ hx))
      cases hE : startsWithEuro operator with
      | false =>
        have hA : hasPct ("\"" ++ t ++ "\"." ++ dbField ++ " ").data = false := by
          have h1 : ("\"" ++ t ++ "\"." ++ dbField ++ " ").data
              = "\"".data ++ t.data ++ "\".".data ++ dbField.data ++ " ".data := rfl
          rw [h1]
          simp only [hasPct_append, ht, hfd, Bool.or_false, Bool.false_or]
          decide
        have hstep : condEntries info t ((k, v) :: rest) start
            = (sprintfD ("\"" ++ t ++ "\"." ++ dbField ++ " " ++ getConditionString operator)
                  start :: (condEntries info t rest (start + 1)).1,
              (if operator = "$in" ∨ operator = "$nin" then Value.varray v else v)
                :: (condEntries info t rest (start + 1)).2) := by
          simp [condEntries, hcp, hl, hE]
        rw [hstep, htail, hknown]
        have hcondhead :
            sprintfD ("\"" ++ t ++ "\"." ++ dbField ++ " " ++ getConditionString operator) start
              = "\"" ++ t ++ "\"." ++ dbField ++ " " ++ specOperatorSQL operator start := by
          have hassoc : "\"" ++ t ++ "\"." ++ dbField ++ " " ++ getConditionString operator
              = ("\"" ++ t ++ "\"." ++ dbField ++ " ") ++ getConditionString operator := by
            simp [String.append_assoc]
          rw [hassoc, sprintfD_cond_split _ _ _ hA hE]
        rw [hcondhead]
        simp [specCondsAll, specArgsAll, specCondition, specBound, hE]
      | true =>
        have hA : hasPct ("LOWER(\"" ++ t ++ "\"." ++ dbField ++ ") ").data = false := by
          have h1 : ("LOWER(\"" ++ t ++ "\"." ++ dbField ++ ") ").data
              = "LOWER(\"".data ++ t.data ++ "\".".data ++ dbField.data ++ ") ".data := rfl
          rw [h1]
          simp only [hasPct_append, ht, hfd, Bool.or_false, Bool.false_or]
          decide
        have hstep : condEntries info t ((k, v) :: rest) start
            = (sprintfD ("LOWER(\"" ++ t ++ "\"." ++ dbField ++ ") "
                    ++ getConditionString operator) start
                  :: (condEntries info t rest (start + 1)).1,
              (if operator = "$in" ∨ operator = "$nin" then
                  Value.varray (lowerIfString v) else lowerIfString v)
                :: (condEntries info t rest (start + 1)).2) := by
          simp [condEntries, hcp, hl, hE]
        rw [hstep, htail, hknown]
        have hcondhead :
            sprintfD ("LOWER(\"" ++ t ++ "\"." ++ dbField ++ ") "
                ++ getConditionString operator) start
              = "LOWER(\"" ++ t ++ "\"." ++ dbField ++ ") " ++ specEuroSQL operator start := by
          have hassoc : "LOWER(\"" ++ t ++ "\"." ++ dbField ++ ") "
                ++ getConditionString operator
              = ("LOWER(\"" ++ t ++ "\"." ++ dbField ++ ") ") ++ getConditionString operator := by
            simp [String.append_assoc]
          rw [hassoc, sprintfD_cond_split_euro _ _ _ hA hE]
        rw [hcondhead]
        simp [specCondsAll, specArgsAll, specCondition, specBound, hE]

/-- C3 counterexample: the filter entry (name[€like], "ABC") has a known
field name and an operator token outside the claim's enumerated list, so
the claim's mapping assigns it the default template and the untouched
value "ABC"; the compiler instead wraps the column in LOWER(...), emits
a LIKE comparison and binds the lower-cased value "abc". -/
theorem constructConditions_euro_operator_cex :
    constructConditions sampleCache "people"
        (some [("name[€like]", Value.vstr "ABC")]) "people"
      = Except.ok (["LOWER(\"people\".name) LIKE $1"], [Value.vstr "abc"])
    ∧ ¬ constructConditions sampleCache "people"
        (some [("name[€like]", Value.vstr "ABC")]) "people"
      = Except.ok (["\"people\".name = $1"], [Value.vstr "ABC"]) := by
  exact ⟨by decide, by decide⟩

/-- C3 (amended): over a registered table, every filter entry whose
field name is known compiles per its operator token: a token carrying
the case-insensitive € marker wraps the column reference in LOWER(...),
compiles €like/€prefix/€suffix to LIKE and every other €-marked token to
equality, and lower-cases a textual value before binding; every other
token follows the claimed table (default and $eq to equality,
$ne/$gt/$gte/$lt/$lte to the corresponding comparison,
$like/$prefix/$suffix all to LIKE with no wildcard added, $in to = ANY,
$nin to != ALL with the value coerced to a single array argument).
Placeholders are numbered $1, $2, ... strictly in processing order with
exactly one argument slot per kept entry.  Stated for table/column texts
free of percent characters, where Go's two-stage Sprintf formatting is
plain substitution.  The claimed example compiles to a WHERE fragment
ending in > $1 with argument list [18]. -/
theorem constructConditions_operator_templates_amended (cache : Cache) (t table : String)
    (info : ModelInfo) (entries : List (String × Value))
    (hreg : getModelInfo cache table = some info)
    (ht : hasPct t.data = false)
    (hf : ∀ x ∈ specKnown info entries, hasPct x.1.data = false) :
    constructConditions cache t (some entries) table
        = Except.ok (specCondsAll t 1 (specKnown info entries),
            specArgsAll (specKnown info entries))
    ∧ (specArgsAll (specKnown info entries)).length = (specKnown info entries).length
    ∧ (specCondsAll t 1 (specKnown info entries)).length = (specKnown info entries).length
    ∧ FilterQuery sampleCache "SELECT x FROM y" "people"
        (some [("age[$gt]", Value.vint 18)]) none "people" 10 1
      = Except.ok ("SELECT x FROM y WHERE \"people\".age > $1 LIMIT 10 OFFSET 0",
          [Value.vint 18]) := by
  refine ⟨?_, specArgsAll_length _, specCondsAll_length t _ 1, by decide⟩
  have h := condEntries_spec_all info t entries 1 ht hf
  simp [constructConditions, hreg, h]

theorem constructConditions_operator_templates_amended_witness :
    constructConditions sampleCache "people"
        (some [("age[$gt]", Value.vint 18), ("name[$nin]", Value.vstr "x"),
          ("name[€like]", Value.vstr "ABC")]) "people"
      = Except.ok (["\"people\".age > $1", "\"people\".name != ALL($2)",
            "LOWER(\"people\".name) LIKE $3"],
          [Value.vint 18, Value.varray (Value.vstr "x"), Value.vstr "abc"]) := by
  have h := (constructConditions_operator_templates_amended sampleCache "people" "people"
    (buildModelInfo [⟨"age", "age", "i", ""⟩, ⟨"name", "name", "i,u", ""⟩])
    [("age[$gt]", Value.vint 18), ("name[$nin]", Value.vstr "x"),
      ("name[€like]", Value.vstr "ABC")]
    (by decide) (by decide) (by decide)).1
  rw [h]
  decide

theorem condEntries_all_unknown (info : ModelInfo) (t : String) :
    ∀ (entries : List (String × Value)) (start : Nat),
      (∀ e ∈ entries, lookupA (condParse e.1).1 info.dbTagMap = none) →
      condEntries info t entries start = ([], []) := by
  intro entries
  induction entries with
  | nil => intro start _; rfl
  | cons e rest ih =>
    intro start hunk
    obtain ⟨k, v⟩ := e
    rcases hcp : condParse k with ⟨fieldName, operator⟩
    have hl : lookupA fieldName info.dbTagMap = none := by
      have h := hunk (k, v) (List.mem_cons_self _ _)
      rwa [hcp] at h
    have hstep : condEntries info t ((k, v) :: rest) start
        = condEntries info t rest start := by
      simp [condEntries, hcp, hl]
    rw [hstep]
    exact ih start (fun e he => hunk e (List.mem_cons_of_mem _ he))

/-- C4: a filter map none of whose keys resolves to a registered field of
the table makes `FilterQuery` succeed with no WHERE clause — the output
is exactly the base query plus the pagination tail — and an empty
argument list; unknown filter field names are skipped silently, never
reported as an error. -/
theorem filterQuery_unknown_filter_fields (cache : Cache) (base t table : String)
    (info : ModelInfo) (entries : List (String × Value)) (pp pg : Int)
    (hreg : getModelInfo cache table = some info)
    (hunk : ∀ e ∈ entries, lookupA (condParse e.1).1 info.dbTagMap = none) :
    FilterQuery cache base t (some entries) none table pp pg
      = Except.ok (base ++ limitOffsetSuffix pp pg, []) := by
  have h := condEntries_all_unknown info t entries 1 hunk
  simp [FilterQuery, constructConditions, hreg, h]

theorem filterQuery_unknown_filter_fields_witness :
    FilterQuery sampleCache "B" "people" (some [("bogus", Value.vint 1)]) none "people" 10 1
      = Except.ok ("B LIMIT 10 OFFSET 0", []) := by
  have h := filterQuery_unknown_filter_fields sampleCache "B" "people" "people"
    (buildModelInfo [⟨"age", "age", "i", ""⟩, ⟨"name", "name", "i,u", ""⟩])
    [("bogus", Value.vint 1)] 10 1 (by decide) (by decide)
  rw [h]
  decide

theorem sortEntriesLoop_all_valid (info : ModelInfo) (t : String) :
    ∀ entries : List (String × String),
      (∀ e ∈ entries, validDir e.2 = true) →
      sortEntriesLoop info t entries = Except.ok (specSortClauses info t entries) := by
  intro entries
  induction entries with
  | nil => intro _; rfl
  | cons e rest ih =>
    intro hv
    obtain ⟨f, o⟩ := e
    have hvo : validDir o = true := hv (f, o) (List.mem_cons_self _ _)
    have hcond : ¬ (¬ (strToUpper o = "ASC") ∧ ¬ (strToUpper o = "DESC")) := by
      rw [validDir] at hvo
      by_cases h1 : strToUpper o = "ASC"
      · exact fun h => h.1 h1
      · rw [if_neg h1] at hvo
        by_cases h2 : strToUpper o = "DESC"
        · exact fun h => h.2 h2
        · rw [if_neg h2] at hvo
          exact Bool.noConfusion hvo
    have htail := ih (fun e he => hv e (List.mem_cons_of_mem _ he))
    cases hl : lookupA f info.dbTagMap with
    | some dbField => simp [sortEntriesLoop, hcond, htail, hl, specSortClauses]
    | none => simp [sortEntriesLoop, hcond, htail, hl, specSortClauses]

theorem sortEntriesLoop_invalid (info : ModelInfo) (t : String) :
    ∀ entries : List (String × String),
      (∃ e ∈ entries, validDir e.2 = false) →
      ∃ f o, (f, o) ∈ entries ∧ validDir o = false
        ∧ sortEntriesLoop info t entries
            = Except.error (Failure.recoverable ("invalid sort order: " ++ strToUpper o)) := by
  intro entries
  induction entries with
  | nil => rintro ⟨e, he, _⟩; cases he
  | cons e rest ih =>
    intro hex
    obtain ⟨g, o2⟩ := e
    by_cases hv : validDir o2 = false
    · have hcond : ¬ (strToUpper o2 = "ASC") ∧ ¬ (strToUpper o2 = "DESC") := by
        rw [validDir] at hv
        constructor
        · intro h1; rw [if_pos h1] at hv; exact Bool.noConfusion hv
        · intro h2
          by_cases h1 : strToUpper o2 = "ASC"
          · rw [if_pos h1] at hv; exact Bool.noConfusion hv
          · rw [if_neg h1, if_pos h2] at hv; exact Bool.noConfusion hv
      refine ⟨g, o2, List.mem_cons_self _ _, hv, ?_⟩
      simp [sortEntriesLoop, hcond]
    · have hvt : validDir o2 = true := by
        cases h : validDir o2
        · exact absurd h hv
        · rfl
      have hcond : ¬ (¬ (strToUpper o2 = "ASC") ∧ ¬ (strToUpper o2 = "DESC")) := by
        rw [validDir] at hvt
        by_cases h1 : strToUpper o2 = "ASC"
        · exact fun h => h.1 h1
        · rw [if_neg h1] at hvt
          by_cases h2 : strToUpper o2 = "DESC"
          · exact fun h => h.2 h2
          · rw [if_neg h2] at hvt
            exact Bool.noConfusion hvt
      have hex2 : ∃ e ∈ rest, validDir e.2 = false := by
        obtain ⟨e, he, hef⟩ := hex
        rcases List.mem_cons.mp he with h | h
        · subst h; exact absurd hef hv
        · exact ⟨e, h, hef⟩
      obtain ⟨f, o, hm, hinv, heq⟩ := ih hex2
      refine ⟨f, o, List.mem_cons_of_mem _ hm, hinv, ?_⟩
      simp [sortEntriesLoop, hcond, heq]

/-- C5: over a registered table, each sort entry's direction is
upper-cased and checked against ASC/DESC: any entry whose direction does
not normalize to one of the two makes `FilterQuery` return a recoverable
invalid-sort-order error naming the offending normalized direction; when
every direction is valid the call succeeds, entries with unknown field
names are silently skipped, and if at least one clause remains an ORDER
BY listing column and normalized direction is appended.  The sort
entry (name, bogus) fails with a validation error while (name, desc)
compiles to an ORDER BY ending in DESC. -/
theorem filterQuery_sort_validation (cache : Cache) (base t table : String)
    (info : ModelInfo) (entries : List (String × String)) (pp pg : Int)
    (hreg : getModelInfo cache table = some info) :
    ((∃ e ∈ entries, validDir e.2 = false) →
      ∃ o : String, (∃ f, (f, o) ∈ entries ∧ validDir o = false)
        ∧ FilterQuery cache base t none (some entries) table pp pg
          = Except.error (Failure.recoverable ("invalid sort order: " ++ strToUpper o)))
    ∧ ((∀ e ∈ entries, validDir e.2 = true) →
      FilterQuery cache base t none (some entries) table pp pg
        = Except.ok (base
            ++ (if (specSortClauses info t entries).length > 0 then
                " ORDER BY " ++ joinSep ", " (specSortClauses info t entries) else "")
            ++ limitOffsetSuffix pp pg, []))
    ∧ FilterQuery sampleCache "B" "people" none (some [("name", "bogus")]) "people" 10 1
        = Except.error (Failure.recoverable "invalid sort order: BOGUS")
    ∧ FilterQuery sampleCache "B" "people" none (some [("name", "desc")]) "people" 10 1
        = Except.ok ("B ORDER BY \"people\".name DESC LIMIT 10 OFFSET 0", []) := by
  refine ⟨?_, ?_, by decide, by decide⟩
  · intro hex
    obtain ⟨f, o, hm, hinv, heq⟩ := sortEntriesLoop_invalid info t entries hex
    have hlen : entries.length > 0 := by
      cases entries with
      | nil => cases hm
      | cons _ _ => simp
    refine ⟨o, ⟨f, hm, hinv⟩, ?_⟩
    simp [FilterQuery, constructConditions, hreg, hlen, heq]
  · intro hval
    cases entries with
    | nil =>
      simp [FilterQuery, constructConditions, hreg, specSortClauses, limitOffsetSuffix,
        String.append_assoc]
    | cons e rest =>
      have heq := sortEntriesLoop_all_valid info t (e :: rest) hval
      by_cases hcl : (specSortClauses info t (e :: rest)).length > 0
      · simp [FilterQuery, constructConditions, hreg, heq, hcl, String.append_assoc]
      · simp [FilterQuery, constructConditions, hreg, heq, hcl, String.append_assoc]

theorem filterQuery_sort_validation_witness :
    FilterQuery sampleCache "B2" "people" none (some [("age", "Asc"), ("zz", "desc")])
        "people" 5 3
      = Except.ok ("B2 ORDER BY \"people\".age ASC LIMIT 5 OFFSET 10", []) := by
  have h := (filterQuery_sort_validation sampleCache "B2" "people" "people"
    (buildModelInfo [⟨"age", "age", "i", ""⟩, ⟨"name", "name", "i,u", ""⟩])
    [("age", "Asc"), ("zz", "desc")] 5 3 (by decide)).2.1
  rw [h (by decide)]
  decide

end Fsql
